import Mathlib

set_option maxRecDepth 100000

/-!
Verification of the CRISP-DM data-understanding pipeline
(`src/crispdm_data_understanding_class/class_data_understanding.py`).

Strings are shallowly embedded as `List Char`, tables as ordered lists of
named columns, and the relevant slice of `main` (sheet resolution, column
name normalization, artifact export) as pure Lean functions.  Log messages
produced with Python f-strings are modelled structurally: each message
constructor carries exactly the dynamic data interpolated in the source.
-/

namespace CrispDM

/-- Strings are modelled as lists of characters. -/
abbrev Str := List Char

/-! ### clean_filename (source lines 19–28)

```python
def clean_filename(filename):
    clean = re.sub(r'[/<>:"|?*]', '_', filename)
    if len(clean) > 100:
        clean = clean[:97] + "..."
    clean = re.sub(r'_+', '_', clean)
    return clean.strip('_')
```
-/

/-- The characters matched by the regex character class `[/<>:"|?*]`. -/
def forbiddenChar (c : Char) : Bool :=
  c = '/' || c = '<' || c = '>' || c = ':' || c = '"' || c = '?' || c = '|' || c = '*'

/-- `re.sub(r'[/<>:"|?*]', '_', s)`: replace every forbidden character by `_`. -/
def replaceForbidden (s : Str) : Str :=
  s.map (fun c => if forbiddenChar c then '_' else c)

/-- `clean[:97] + "..."` applied when `len(clean) > 100`, otherwise identity. -/
def truncate100 (s : Str) : Str :=
  if s.length > 100 then s.take 97 ++ ['.', '.', '.'] else s

/-- `re.sub(r'_+', '_', s)`: collapse each maximal run of underscores to one. -/
def collapseUnderscores : Str → Str
  | [] => []
  | [c] => [c]
  | c :: d :: rest =>
    if c = '_' && d = '_' then collapseUnderscores (d :: rest)
    else c :: collapseUnderscores (d :: rest)

/-- `s.strip('_')`: drop leading and trailing underscores. -/
def stripUnderscores (s : Str) : Str :=
  List.rdropWhile (fun c => c = '_') (s.dropWhile (fun c => c = '_'))

/-- `clean_filename` exactly as the source orders its steps: replace the
forbidden characters, then (if longer than 100) truncate to 97 characters and
append `"..."`, then collapse underscore runs, then strip edge underscores. -/
def clean_filename (s : Str) : Str :=
  stripUnderscores (collapseUnderscores (truncate100 (replaceForbidden s)))

/-! ### Spec-side formulations for the sanitizer

`spec_clean_filename` follows the order of operations the specification
states (collapse and trim happen *before* the length check), with the
collapse step written independently as a right fold, so that comparing it to
`clean_filename` is a genuine refinement question. -/

/-- Collapse of underscore runs, written as a right fold: prepend a character
unless it is an underscore landing on an underscore. -/
def specCollapse (s : Str) : Str :=
  s.foldr (fun c acc => if c = '_' && (acc.head? == some '_') then acc else c :: acc) []

/-- The sanitizer in the order the specification describes: replace, collapse,
trim, and only then truncate when longer than 100. -/
def spec_clean_filename (s : Str) : Str :=
  let t := stripUnderscores (specCollapse (replaceForbidden s))
  if t.length > 100 then t.take 97 ++ ['.', '.', '.'] else t

/-- The sanitizer in the order the source implements: replace, truncate,
collapse, trim, with the collapse step written as the fold. -/
def spec_clean_filename_code_order (s : Str) : Str :=
  stripUnderscores (specCollapse (truncate100 (replaceForbidden s)))

/-! ### Column-name normalization (source line 78)

```python
df_cols_norm.columns = [str(c).strip().replace(" ", "_") for c in df.columns]
```
-/

/-- The whitespace characters removed by Python's `str.strip()` (ASCII). -/
def pyWhitespace (c : Char) : Bool :=
  c = ' ' || c = '\t' || c = '\n' || c = '\r' || c = '\x0b' || c = '\x0c'

/-- `s.strip()`: drop leading and trailing whitespace. -/
def pyStrip (s : Str) : Str :=
  List.rdropWhile pyWhitespace (s.dropWhile pyWhitespace)

/-- `s.replace(" ", "_")`: replace every space by an underscore. -/
def replaceSpaces (s : Str) : Str :=
  s.map (fun c => if c = ' ' then '_' else c)

/-- One column label of line 78: `str(c).strip().replace(" ", "_")`
(stringification is the identity on the embedded string labels). -/
def normalize_colname (s : Str) : Str :=
  replaceSpaces (pyStrip s)

/-! ### Data model

A table is an ordered list of named columns.  Whether a column is selected by
`select_dtypes(include=[np.number])` is recorded as the `isNumeric` dtype
flag; cell values are kept abstractly as optional strings (missing = `none`).
-/

structure Column where
  name : Str
  isNumeric : Bool
  values : List (Option Str)
deriving DecidableEq, Repr

abbrev Table := List Column

/-- `read_any` returns either a single DataFrame or a dict sheet-name → frame
(`isinstance(df, dict)` branch, line 62).  Dict insertion order is the list
order. -/
inductive SheetKey where
  | int (n : Int)
  | str (s : Str)
deriving DecidableEq, Repr

inductive ReadResult where
  | single (t : Table)
  | mapping (m : List (SheetKey × Table))
deriving DecidableEq, Repr

/-! ### Python `int()` coercion of the `--sheet` argument (lines 51–56)

```python
sheet: Optional[Union[int,str]] = None
if args.sheet is not None:
    try:
        sheet = int(args.sheet)
    except ValueError:
        sheet = args.sheet
```

`int()` on a string strips whitespace, accepts an optional sign, and then a
group of decimal digits in which single underscores may separate digits. -/

/-- Valid continuation of a digit group: digits, with single underscores only
between digits. -/
def digitTail : Str → Bool
  | [] => true
  | [c] => c.isDigit
  | c :: d :: rest =>
    if c.isDigit then digitTail (d :: rest)
    else c = '_' && d.isDigit && digitTail rest

/-- A whole digit group: nonempty, starts with a digit, valid continuation. -/
def digitGroup : Str → Bool
  | [] => false
  | c :: rest => c.isDigit && digitTail rest

/-- Numeric value of a digit group (underscore separators ignored). -/
def digitVal (s : Str) : Int :=
  (s.filter (fun c => c ≠ '_')).foldl (fun a c => 10 * a + (c.toNat - 48)) 0

/-- Python `int(s)` for a string argument: `some n` on success, `none` when a
`ValueError` is raised. -/
def pyInt (s : Str) : Option Int :=
  let t := List.rdropWhile pyWhitespace (s.dropWhile pyWhitespace)
  match t with
  | [] => none
  | c :: rest =>
    if c = '+' then if digitGroup rest then some (digitVal rest) else none
    else if c = '-' then if digitGroup rest then some (-(digitVal rest)) else none
    else if digitGroup t then some (digitVal t) else none

/-- The `--sheet` argument after the try/except coercion: an integer key when
`int()` succeeds, otherwise the string itself. -/
def coerceSheet : Option Str → Option SheetKey
  | none => none
  | some s =>
    match pyInt s with
    | some n => some (SheetKey.int n)
    | none => some (SheetKey.str s)

/-- `sheet in df` / `df[sheet]`: first binding of the key in insertion order. -/
def lookupSheet (m : List (SheetKey × Table)) (k : SheetKey) : Option Table :=
  (m.find? (fun p => p.1 = k)).map (·.2)

/-! ### The modelled slice of `main` (lines 41–123)

External collaborators (`read_any`, the plot renderers, `data_dictionary`,
`quality_flags`) are opaque: `read_any`'s result is an input of the model and
every write outside the per-column try/except is assumed to succeed, exactly
as an exception there would simply escape `main`.  Whether writing one
categorical frequency CSV raises is modelled by a predicate `wr` on the
target path, since that is the only write the source guards. -/

inductive LogLevel where
  | info | warning | error
deriving DecidableEq, Repr

/-- The diagnostics of `main` relevant to the verified claims, carrying the
data interpolated into the source's f-strings. -/
inductive LogMsg where
  /-- `logger.warning(f"Multiple sheets found. Using first sheet: {first_sheet}")` -/
  | usingFirstSheet (k : SheetKey)
  /-- `logger.error(f"Sheet '{sheet}' not found. Available sheets: {list(df.keys())}")` -/
  | sheetNotFound (requested : SheetKey) (available : List SheetKey)
  /-- `logger.warning(f"No se pudo guardar archivo para columna '{c}': {e}")` -/
  | columnSaveFailed (col : Str)
deriving DecidableEq, Repr

/-- Severity the source attaches to each modelled diagnostic. -/
def levelOf : LogMsg → LogLevel
  | .usingFirstSheet _ => .warning
  | .sheetNotFound _ _ => .error
  | .columnSaveFailed _ => .warning

/-- The files `main` writes (figures via the opaque renderers). -/
inductive Artifact where
  | interimSnapshot
  | dataDictionaryCsv
  | dictionaryDebugCsv
  | qualityFlagsJson
  | missingBarPng
  | histograms
  | boxplots
  | corrMatrixPng
  | numericSummaryCsv
  | freqTable (path : Str)
deriving DecidableEq, Repr

/-- Lines 77–78: `df.copy()` with the normalized column labels assigned; the
cell values and dtypes of the copy are untouched. -/
def normalizeTable (df : Table) : Table :=
  df.map (fun col => { col with name := normalize_colname col.name })

/-- Line 106: `df_cols_norm.select_dtypes(include=[np.number])`. -/
def numericCols (df : Table) : Table := df.filter (·.isNumeric)

/-- Line 111: `df_cols_norm.select_dtypes(exclude=[np.number])`. -/
def catCols (df : Table) : Table := df.filter (fun c => !c.isNumeric)

/-- Line 118's target path: `f"reports/{clean_col_name}_top20_value_counts.csv"`
with `clean_col_name = clean_filename(c)`. -/
def freqFileName (c : Str) : Str :=
  "reports/".toList ++ clean_filename c ++ "_top20_value_counts.csv".toList

/-- Lines 113–121: the per-column loop.  Each iteration computes the cleaned
path, tries the write, and on an exception logs a warning and moves on. -/
def exportFreqTables (wr : Str → Bool) : List Str → List Artifact × List LogMsg
  | [] => ([], [])
  | c :: rest =>
    let out := exportFreqTables wr rest
    if wr (freqFileName c) then (Artifact.freqTable (freqFileName c) :: out.1, out.2)
    else (out.1, LogMsg.columnSaveFailed c :: out.2)

/-- Lines 79–123 applied to the normalized table: every artifact written, in
program order, together with the warnings of the frequency-table loop. -/
def runExports (wr : Str → Bool) (dfNorm : Table) : List Artifact × List LogMsg :=
  let base : List Artifact :=
    [Artifact.interimSnapshot, Artifact.dataDictionaryCsv, Artifact.dictionaryDebugCsv,
     Artifact.qualityFlagsJson, Artifact.missingBarPng, Artifact.histograms,
     Artifact.boxplots, Artifact.corrMatrixPng]
  let numPart : List Artifact :=
    if (numericCols dfNorm).length > 0 then [Artifact.numericSummaryCsv] else []
  let freq := exportFreqTables wr ((catCols dfNorm).map (·.name))
  (base ++ numPart ++ freq.1, freq.2)

/-- How the process ends: `finished code artifacts logs` is a normal return of
`main` (CPython exit status `code`), `crashed` an uncaught exception
(`list(df.keys())[0]` on an empty dict raises `IndexError`). -/
inductive Outcome where
  | finished (exitCode : Nat) (artifacts : List Artifact) (logs : List LogMsg)
  | crashed
deriving DecidableEq, Repr

/-- The run from the loader's result onward (lines 51–123): coerce the
`--sheet` argument, resolve the sheet, normalize names, export. -/
def runMain (wr : Str → Bool) (res : ReadResult) (sheetArg : Option Str) : Outcome :=
  let sheet := coerceSheet sheetArg
  match res with
  | .single t =>
    let out := runExports wr (normalizeTable t)
    .finished 0 out.1 out.2
  | .mapping m =>
    match sheet with
    | none =>
      match m with
      | [] => .crashed
      | (k, t) :: _ =>
        let out := runExports wr (normalizeTable t)
        .finished 0 out.1 (LogMsg.usingFirstSheet k :: out.2)
    | some k =>
      match lookupSheet m k with
      | some t =>
        let out := runExports wr (normalizeTable t)
        .finished 0 out.1 out.2
      | none =>
        .finished 0 [] [LogMsg.sheetNotFound k (m.map (·.1))]

/-- Exit status of a run, when the process terminated at all. -/
def exitStatus : Outcome → Option Nat
  | .finished code _ _ => some code
  | .crashed => none

/-- Whether a string contains two consecutive underscores. -/
def hasDoubleUnderscore : Str → Bool
  | c :: d :: rest => (c = '_' && d = '_') || hasDoubleUnderscore (d :: rest)
  | _ => false

/-- A two-column all-categorical table used to instantiate the export-loop
properties on a concrete run. -/
def witnessTable : Table :=
  [⟨"bad".toList, false, []⟩, ⟨"ok".toList, false, []⟩]

/-- A write capability that raises exactly on the frequency-table path of the
column `"bad"` and succeeds elsewhere. -/
def witnessWr : Str → Bool :=
  fun p => decide (p ≠ freqFileName ("bad".toList))

end CrispDM

/-! ## Lemmas about the sanitizer -/

namespace CrispDM

lemma collapseUnderscores_sublist (s : Str) : List.Sublist (collapseUnderscores s) s := by
  induction s with
  | nil => simp [collapseUnderscores]
  | cons c tail ih =>
    cases tail with
    | nil => simp [collapseUnderscores]
    | cons d rest =>
      cases hb : (c = '_' && d = '_') with
      | true =>
        simp only [collapseUnderscores, hb, if_pos]
        exact ih.trans (List.sublist_cons_self c (d :: rest))
      | false =>
        simp only [collapseUnderscores, hb, Bool.false_eq_true, if_false]
        exact ih.cons₂ c

lemma stripUnderscores_sublist (s : Str) : List.Sublist (stripUnderscores s) s := by
  unfold stripUnderscores
  have h1 := List.rdropWhile_prefix (fun c => decide (c = '_'))
    (s.dropWhile (fun c => c = '_'))
  have h2 := @List.dropWhile_suffix Char s (fun c => decide (c = '_'))
  exact h1.sublist.trans h2.sublist

lemma truncate100_length (s : Str) : (truncate100 s).length ≤ 100 := by
  unfold truncate100
  split
  · simp only [List.length_append, List.length_take, List.length_cons, List.length_nil]
    omega
  · omega

lemma mem_replaceForbidden {c : Char} {s : Str} (h : c ∈ replaceForbidden s) :
    forbiddenChar c = false := by
  unfold replaceForbidden at h
  obtain ⟨a, _, ha⟩ := List.mem_map.mp h
  subst ha
  cases hf : forbiddenChar a with
  | true => simp only [hf, if_true]; decide
  | false => simp [hf]

lemma mem_truncate100 {c : Char} {s : Str} (h : c ∈ truncate100 s) :
    c ∈ s ∨ c = '.' := by
  unfold truncate100 at h
  split at h
  · rcases List.mem_append.mp h with h' | h'
    · exact Or.inl (List.mem_of_mem_take h')
    · simp only [List.mem_cons, List.not_mem_nil, or_false] at h'
      rcases h' with h' | h' | h' <;> exact Or.inr h'
  · exact Or.inl h

lemma collapseUnderscores_cons_eq (d : Char) (rest : Str) :
    ∃ t, collapseUnderscores (d :: rest) = d :: t := by
  induction rest generalizing d with
  | nil => exact ⟨[], rfl⟩
  | cons e r ih =>
    cases hb : (d = '_' && e = '_') with
    | true =>
      simp only [Bool.and_eq_true, decide_eq_true_eq] at hb
      obtain ⟨hd, he⟩ := hb
      subst hd
      subst he
      obtain ⟨t, ht⟩ := ih '_'
      exact ⟨t, by simp [collapseUnderscores, ht]⟩
    | false =>
      exact ⟨collapseUnderscores (e :: r),
        by simp only [collapseUnderscores, hb, Bool.false_eq_true, if_false]⟩

lemma hasDoubleUnderscore_collapse (s : Str) :
    hasDoubleUnderscore (collapseUnderscores s) = false := by
  induction s with
  | nil => rfl
  | cons c tail ih =>
    cases tail with
    | nil => rfl
    | cons d rest =>
      cases hb : (c = '_' && d = '_') with
      | true => simpa only [collapseUnderscores, hb, if_pos] using ih
      | false =>
        obtain ⟨t, ht⟩ := collapseUnderscores_cons_eq d rest
        rw [ht] at ih
        simp only [collapseUnderscores, hb, Bool.false_eq_true, if_false, ht,
          hasDoubleUnderscore, ih, hb, Bool.or_false]

lemma hasDoubleUnderscore_cons {c : Char} {t : Str}
    (h : hasDoubleUnderscore (c :: t) = false) : hasDoubleUnderscore t = false := by
  cases t with
  | nil => rfl
  | cons d r =>
    simp only [hasDoubleUnderscore, Bool.or_eq_false_iff] at h
    exact h.2

lemma hasDoubleUnderscore_append_right {l₁ : Str} (l₂ : Str)
    (h : hasDoubleUnderscore l₁ = true) : hasDoubleUnderscore (l₁ ++ l₂) = true := by
  induction l₁ with
  | nil => cases h
  | cons x t ih =>
    cases t with
    | nil => cases h
    | cons d r =>
      simp only [hasDoubleUnderscore, Bool.or_eq_true] at h
      rcases h with h | h
      · simp [hasDoubleUnderscore, h]
      · have hr := ih h
        rw [List.cons_append] at hr
        simp [hasDoubleUnderscore, hr]

lemma hasDoubleUnderscore_append_left (l₁ : Str) {l₂ : Str}
    (h : hasDoubleUnderscore l₂ = true) : hasDoubleUnderscore (l₁ ++ l₂) = true := by
  induction l₁ with
  | nil => exact h
  | cons x t ih =>
    cases hc : t ++ l₂ with
    | nil =>
      rw [List.append_eq_nil] at hc
      rw [hc.2] at h
      cases h
    | cons y z =>
      show hasDoubleUnderscore (x :: (t ++ l₂)) = true
      rw [hc]
      rw [hc] at ih
      simp only [hasDoubleUnderscore, Bool.or_eq_true]
      exact Or.inr ih

lemma hasDoubleUnderscore_strip {s : Str}
    (h : hasDoubleUnderscore s = false) :
    hasDoubleUnderscore (stripUnderscores s) = false := by
  unfold stripUnderscores
  obtain ⟨pre, hpre⟩ := @List.dropWhile_suffix Char s (fun c => decide (c = '_'))
  have h₁ : hasDoubleUnderscore (s.dropWhile (fun c => c = '_')) = false := by
    by_contra hc
    rw [Bool.not_eq_false] at hc
    have := hasDoubleUnderscore_append_left pre hc
    rw [hpre, h] at this
    cases this
  obtain ⟨suf, hsuf⟩ :=
    List.rdropWhile_prefix (fun c => c = '_') (s.dropWhile (fun c => c = '_'))
  by_contra hc
  rw [Bool.not_eq_false] at hc
  have := hasDoubleUnderscore_append_right suf hc
  rw [hsuf, h₁] at this
  cases this

lemma specCollapse_cons (c : Char) (rest : Str) :
    specCollapse (c :: rest) =
      if c = '_' && ((specCollapse rest).head? == some '_') then specCollapse rest
      else c :: specCollapse rest := rfl

lemma specCollapse_head (d : Char) (r : Str) : (specCollapse (d :: r)).head? = some d := by
  rw [specCollapse_cons]
  cases hb : (d = '_' && ((specCollapse r).head? == some '_')) with
  | true =>
    simp only [Bool.and_eq_true, decide_eq_true_eq, beq_iff_eq] at hb
    simp [hb.1, hb.2]
  | false => simp [hb]

lemma specCollapse_eq_collapseUnderscores (s : Str) :
    specCollapse s = collapseUnderscores s := by
  induction s with
  | nil => rfl
  | cons c tail ih =>
    cases tail with
    | nil => simp [specCollapse_cons, specCollapse, collapseUnderscores]
    | cons d rest =>
      rw [specCollapse_cons c (d :: rest), specCollapse_head d rest, ih]
      by_cases hc : c = '_' <;> by_cases hd : d = '_'
      · subst hc; subst hd
        simp [collapseUnderscores]
      · subst hc
        simp [collapseUnderscores, hd]
      · subst hd
        simp [collapseUnderscores, hc]
      · simp [collapseUnderscores, hc, hd]

end CrispDM

/-! ## Theorems about clean_filename (claims C1, C4, C9) -/

namespace CrispDM

/-- Claim C1, counterexample: the source truncates *before* collapsing and
trimming underscores, the claimed algorithm truncates *after*; on 101 slashes
the code yields `"..."` while the claimed order yields the empty string. -/
theorem c1_counterexample :
    clean_filename (List.replicate 101 '/') = ['.', '.', '.'] ∧
    spec_clean_filename (List.replicate 101 '/') = [] ∧
    clean_filename (List.replicate 101 '/') ≠
      spec_clean_filename (List.replicate 101 '/') := by
  decide

/-- Claim C1, amended: `clean_filename` replaces each forbidden character by
an underscore, then — if the result exceeds 100 characters — truncates to 97
characters and appends the ellipsis marker, then collapses runs of
underscores, then trims edge underscores (truncation happens before the
collapse and trim steps). -/
theorem c1_clean_filename_algorithm (s : Str) :
    clean_filename s = spec_clean_filename_code_order s := by
  unfold clean_filename spec_clean_filename_code_order
  rw [specCollapse_eq_collapseUnderscores]

/-- Claim C4: every sanitized name is free of the forbidden characters, at
most 100 characters long, and contains no run of two or more underscores. -/
theorem c4_sanitizer_safety (s : Str) :
    (clean_filename s).all (fun c => !(forbiddenChar c)) = true ∧
    (clean_filename s).length ≤ 100 ∧
    hasDoubleUnderscore (clean_filename s) = false := by
  refine ⟨?_, ?_, ?_⟩
  · rw [List.all_eq_true]
    intro c hc
    have h1 : c ∈ collapseUnderscores (truncate100 (replaceForbidden s)) :=
      (stripUnderscores_sublist _).subset hc
    have h2 : c ∈ truncate100 (replaceForbidden s) :=
      (collapseUnderscores_sublist _).subset h1
    rcases mem_truncate100 h2 with h3 | h3
    · simp [mem_replaceForbidden h3]
    · subst h3; decide
  · exact ((stripUnderscores_sublist _).length_le).trans
      (((collapseUnderscores_sublist _).length_le).trans (truncate100_length _))
  · exact hasDoubleUnderscore_strip (hasDoubleUnderscore_collapse _)

/-- Claim C9: the sanitizer is not injective — the distinct column names
`"a/b"` and `"a_b"` sanitize to the same name, hence their top-20
frequency-table exports target the same path. -/
theorem c9_clean_filename_collision :
    "a/b".toList ≠ "a_b".toList ∧
    clean_filename "a/b".toList = clean_filename "a_b".toList ∧
    freqFileName "a/b".toList = freqFileName "a_b".toList := by
  decide

/-! ## Lemmas and theorems about name normalization (claims C6, C8) -/

lemma replaceSpaces_preserves_nonws {c : Char} (h : pyWhitespace c = false) :
    pyWhitespace (if c = ' ' then '_' else c) = false := by
  by_cases hc : c = ' '
  · subst hc
    exact absurd h (by decide)
  · simp [hc, h]

lemma replaceSpaces_idem (s : Str) : replaceSpaces (replaceSpaces s) = replaceSpaces s := by
  unfold replaceSpaces
  rw [List.map_map]
  have hf : ((fun c => if c = ' ' then '_' else c) ∘ fun c => if c = ' ' then '_' else c)
      = (fun c : Char => if c = ' ' then '_' else c) := by
    funext c
    by_cases hc : c = ' ' <;> simp [hc, Function.comp]
  rw [hf]

lemma pyStrip_replaceSpaces_pyStrip (s : Str) :
    pyStrip (replaceSpaces (pyStrip s)) = replaceSpaces (pyStrip s) := by
  have hw := List.dropWhile_eq_self_iff.mp (List.dropWhile_idempotent pyWhitespace s)
  have htw : List.IsPrefix (pyStrip s) (List.dropWhile pyWhitespace s) :=
    List.rdropWhile_prefix pyWhitespace _
  have hthead : ∀ hl : 0 < (pyStrip s).length,
      ¬ pyWhitespace ((pyStrip s).get ⟨0, hl⟩) = true := by
    intro hl
    have hlw : 0 < (List.dropWhile pyWhitespace s).length :=
      lt_of_lt_of_le hl htw.length_le
    have hg : (pyStrip s).get ⟨0, hl⟩ = (List.dropWhile pyWhitespace s).get ⟨0, hlw⟩ := by
      simp only [List.get_eq_getElem]
      exact htw.getElem hl
    rw [hg]
    exact hw hlw
  have htlast : ∀ hl : pyStrip s ≠ [], ¬ pyWhitespace ((pyStrip s).getLast hl) = true :=
    fun hl => List.rdropWhile_last_not pyWhitespace _ hl
  have hlen : (replaceSpaces (pyStrip s)).length = (pyStrip s).length :=
    List.length_map _ _
  have huhead : ∀ hl : 0 < (replaceSpaces (pyStrip s)).length,
      ¬ pyWhitespace ((replaceSpaces (pyStrip s)).get ⟨0, hl⟩) = true := by
    intro hl
    have hlt : 0 < (pyStrip s).length := by rwa [hlen] at hl
    have hg : (replaceSpaces (pyStrip s)).get ⟨0, hl⟩ =
        (fun c => if c = ' ' then '_' else c) ((pyStrip s).get ⟨0, hlt⟩) := by
      simp [replaceSpaces, List.get_eq_getElem]
    rw [hg, Bool.not_eq_true]
    apply replaceSpaces_preserves_nonws
    rw [← Bool.not_eq_true]
    exact hthead hlt
  have hulast : ∀ hl : replaceSpaces (pyStrip s) ≠ [],
      ¬ pyWhitespace ((replaceSpaces (pyStrip s)).getLast hl) = true := by
    intro hl
    have hlt : pyStrip s ≠ [] := by
      intro hnil
      apply hl
      rw [replaceSpaces, hnil]
      rfl
    have hg : (replaceSpaces (pyStrip s)).getLast hl =
        (fun c => if c = ' ' then '_' else c) ((pyStrip s).getLast hlt) := by
      rw [List.getLast_eq_getElem, List.getLast_eq_getElem]
      simp [replaceSpaces]
    rw [hg, Bool.not_eq_true]
    apply replaceSpaces_preserves_nonws
    rw [← Bool.not_eq_true]
    exact htlast hlt
  show List.rdropWhile pyWhitespace
      (List.dropWhile pyWhitespace (replaceSpaces (pyStrip s))) = replaceSpaces (pyStrip s)
  rw [List.dropWhile_eq_self_iff.mpr huhead, List.rdropWhile_eq_self_iff.mpr hulast]

/-- Claim C6: normalization returns a table whose column names are the old
names stripped and with spaces replaced by underscores, with the column
count, order, dtypes, and every cell value unchanged; the source builds it on
a `df.copy()`, leaving the input table untouched. -/
theorem c6_normalize_table (df : Table) :
    (normalizeTable df).map (fun col => col.name)
      = df.map (fun col => normalize_colname col.name) ∧
    (normalizeTable df).map (fun col => col.values) = df.map (fun col => col.values) ∧
    (normalizeTable df).map (fun col => col.isNumeric)
      = df.map (fun col => col.isNumeric) ∧
    (normalizeTable df).length = df.length := by
  refine ⟨?_, ?_, ?_, ?_⟩
  · unfold normalizeTable
    rw [List.map_map]
    rfl
  · unfold normalizeTable
    rw [List.map_map]
    rfl
  · unfold normalizeTable
    rw [List.map_map]
    rfl
  · exact List.length_map _ _

/-- Claim C8: the column-name normalization of line 78 is idempotent. -/
theorem c8_normalize_colname_idempotent (s : Str) :
    normalize_colname (normalize_colname s) = normalize_colname s := by
  unfold normalize_colname
  rw [pyStrip_replaceSpaces_pyStrip, replaceSpaces_idem]

/-! ## Lemmas about sheet coercion and resolution (claims C2, C5, C10) -/

lemma not_ws_of_digit {c : Char} (h : c.isDigit = true) : pyWhitespace c = false := by
  cases hws : pyWhitespace c with
  | false => rfl
  | true =>
    exfalso
    simp only [pyWhitespace, Bool.or_eq_true, decide_eq_true_eq] at hws
    rcases hws with ((((h1 | h1) | h1) | h1) | h1) | h1 <;>
      (subst h1; exact absurd h (by decide))

lemma digitTail_all_digits {s : Str} (h : ∀ c ∈ s, c.isDigit = true) :
    digitTail s = true := by
  induction s with
  | nil => rfl
  | cons c tail ih =>
    cases tail with
    | nil => simpa [digitTail] using h c (List.mem_cons_self c [])
    | cons d rest =>
      have hc := h c (List.mem_cons_self c (d :: rest))
      simp only [digitTail, hc, if_true]
      exact ih (fun x hx => h x (List.mem_cons_of_mem c hx))

lemma pyStrip_digits {s : Str} (h : ∀ c ∈ s, c.isDigit = true) :
    List.rdropWhile pyWhitespace (s.dropWhile pyWhitespace) = s := by
  have hdrop : s.dropWhile pyWhitespace = s := by
    cases s with
    | nil => rfl
    | cons c rest =>
      rw [List.dropWhile_cons, not_ws_of_digit (h c (List.mem_cons_self c rest))]
      simp
  rw [hdrop]
  apply List.rdropWhile_eq_self_iff.mpr
  intro hl
  rw [not_ws_of_digit (h _ (List.getLast_mem hl))]
  simp

lemma pyInt_digits {s : Str} (hne : s ≠ []) (h : ∀ c ∈ s, c.isDigit = true) :
    pyInt s = some (digitVal s) := by
  obtain ⟨c, rest, rfl⟩ := List.exists_cons_of_ne_nil hne
  have hc : c.isDigit = true := h c (List.mem_cons_self c rest)
  have hplus : ¬ c = '+' := fun hcon => by rw [hcon] at hc; exact absurd hc (by decide)
  have hminus : ¬ c = '-' := fun hcon => by rw [hcon] at hc; exact absurd hc (by decide)
  have hgroup : digitGroup (c :: rest) = true := by
    simp [digitGroup, hc,
      digitTail_all_digits (fun d hd => h d (List.mem_cons_of_mem c hd))]
  simp only [pyInt, pyStrip_digits h, hplus, hminus, hgroup, if_true, if_false]

lemma coerceSheet_digits {s : Str} (hne : s ≠ []) (h : ∀ c ∈ s, c.isDigit = true) :
    coerceSheet (some s) = some (SheetKey.int (digitVal s)) := by
  simp [coerceSheet, pyInt_digits hne h]

lemma lookupSheet_str_keys_int (m : List (SheetKey × Table)) (n : Int)
    (hkeys : ∀ p ∈ m, ∃ nm, p.1 = SheetKey.str nm) :
    lookupSheet m (SheetKey.int n) = none := by
  unfold lookupSheet
  rw [List.find?_eq_none.mpr, Option.map_none']
  intro p hp
  obtain ⟨nm, hnm⟩ := hkeys p hp
  simp [hnm]

lemma runMain_mapping_not_found (wr : Str → Bool) (m : List (SheetKey × Table))
    (s : Str) (k : SheetKey) (hk : coerceSheet (some s) = some k)
    (hmiss : lookupSheet m k = none) :
    runMain wr (ReadResult.mapping m) (some s) =
      Outcome.finished 0 [] [LogMsg.sheetNotFound k (m.map (fun p => p.1))] := by
  simp [runMain, hk, hmiss]

/-! ## Lemmas about the export loop (claims C3, C7) -/

lemma exportFreqTables_eq (wr : Str → Bool) (names : List Str) :
    exportFreqTables wr names =
      ((names.filter (fun n => wr (freqFileName n))).map
          (fun n => Artifact.freqTable (freqFileName n)),
       (names.filter (fun n => !wr (freqFileName n))).map
          (fun n => LogMsg.columnSaveFailed n)) := by
  induction names with
  | nil => rfl
  | cons c rest ih =>
    cases hwc : wr (freqFileName c) <;>
      simp [exportFreqTables, hwc, ih, List.filter_cons]

lemma runExports_fst (wr : Str → Bool) (dfNorm : Table) :
    (runExports wr dfNorm).1 =
      [Artifact.interimSnapshot, Artifact.dataDictionaryCsv, Artifact.dictionaryDebugCsv,
       Artifact.qualityFlagsJson, Artifact.missingBarPng, Artifact.histograms,
       Artifact.boxplots, Artifact.corrMatrixPng] ++
      (if (numericCols dfNorm).length > 0 then [Artifact.numericSummaryCsv] else []) ++
      (((catCols dfNorm).map (fun col => col.name)).filter
          (fun n => wr (freqFileName n))).map
        (fun n => Artifact.freqTable (freqFileName n)) := by
  unfold runExports
  rw [exportFreqTables_eq]

lemma runExports_snd (wr : Str → Bool) (dfNorm : Table) :
    (runExports wr dfNorm).2 =
      (((catCols dfNorm).map (fun col => col.name)).filter
          (fun n => !wr (freqFileName n))).map
        (fun n => LogMsg.columnSaveFailed n) := by
  unfold runExports
  rw [exportFreqTables_eq]

/-! ## Theorems about sheet resolution (claims C2, C5, C10) -/

/-- Claim C2, counterexample: on a mapping without the requested sheet the
source logs the error and `return`s from `main` — a normal termination with
exit status 0, not the claimed non-zero termination signal, and no
`SheetNotFoundError` exception. -/
theorem c2_counterexample :
    runMain (fun _ => true)
        (ReadResult.mapping [(SheetKey.str "Sheet1".toList, [])])
        (some "Sheet3".toList) =
      Outcome.finished 0 []
        [LogMsg.sheetNotFound (SheetKey.str "Sheet3".toList)
          [SheetKey.str "Sheet1".toList]] ∧
    exitStatus (runMain (fun _ => true)
        (ReadResult.mapping [(SheetKey.str "Sheet1".toList, [])])
        (some "Sheet3".toList)) = some 0 := by
  decide

/-- Claim C2, amended: when the loader returns a mapping and the coerced
selector matches no key, the run emits an error-level diagnostic reporting the
requested selector and the full list of available sheet keys and `main`
returns early, producing no artifacts — but the termination status is the
normal zero exit, and no `SheetNotFoundError` exception is raised. -/
theorem c2_sheet_not_found_amended (wr : Str → Bool) (m : List (SheetKey × Table))
    (s : Str) (k : SheetKey) (hk : coerceSheet (some s) = some k)
    (hmiss : lookupSheet m k = none) :
    runMain wr (ReadResult.mapping m) (some s) =
      Outcome.finished 0 [] [LogMsg.sheetNotFound k (m.map (fun p => p.1))] ∧
    levelOf (LogMsg.sheetNotFound k (m.map (fun p => p.1))) = LogLevel.error :=
  ⟨runMain_mapping_not_found wr m s k hk hmiss, rfl⟩

/-- Witness for the amended claim C2 at a concrete two-entry run. -/
theorem c2_sheet_not_found_witness :
    coerceSheet (some "Sheet3".toList) = some (SheetKey.str "Sheet3".toList) ∧
    lookupSheet [(SheetKey.str "Sheet1".toList, ([] : Table))]
        (SheetKey.str "Sheet3".toList) = none ∧
    (runMain (fun _ => true)
        (ReadResult.mapping [(SheetKey.str "Sheet1".toList, [])])
        (some "Sheet3".toList) =
      Outcome.finished 0 []
        [LogMsg.sheetNotFound (SheetKey.str "Sheet3".toList)
          ([(SheetKey.str "Sheet1".toList, ([] : Table))].map (fun p => p.1))] ∧
     levelOf (LogMsg.sheetNotFound (SheetKey.str "Sheet3".toList)
        ([(SheetKey.str "Sheet1".toList, ([] : Table))].map (fun p => p.1))) =
       LogLevel.error) :=
  ⟨by decide, by decide,
   c2_sheet_not_found_amended (fun _ => true) _ _ _ (by decide) (by decide)⟩

/-- Claim C5: a mapping with no selector resolves to the first entry in
insertion order, all exports run on that sheet's normalized table, and the
diagnostic naming the chosen sheet is warning-level. -/
theorem c5_default_first_sheet (wr : Str → Bool) (k : SheetKey) (t : Table)
    (rest : List (SheetKey × Table)) :
    runMain wr (ReadResult.mapping ((k, t) :: rest)) none =
      Outcome.finished 0 (runExports wr (normalizeTable t)).1
        (LogMsg.usingFirstSheet k :: (runExports wr (normalizeTable t)).2) ∧
    levelOf (LogMsg.usingFirstSheet k) = LogLevel.warning :=
  ⟨rfl, rfl⟩

/-- Claim C10: an all-digits `--sheet` argument is coerced to the integer, so
against a mapping whose keys are all strings — even one literally containing
that digit string — the lookup fails and the run ends in the sheet-not-found
branch. -/
theorem c10_digit_sheet_unreachable (wr : Str → Bool) (m : List (SheetKey × Table))
    (s : Str) (t : Table) (hne : s ≠ []) (hdig : ∀ c ∈ s, c.isDigit = true)
    (hkeys : ∀ p ∈ m, ∃ nm, p.1 = SheetKey.str nm)
    (_hmem : (SheetKey.str s, t) ∈ m) :
    coerceSheet (some s) = some (SheetKey.int (digitVal s)) ∧
    runMain wr (ReadResult.mapping m) (some s) =
      Outcome.finished 0 []
        [LogMsg.sheetNotFound (SheetKey.int (digitVal s)) (m.map (fun p => p.1))] := by
  have hco := coerceSheet_digits hne hdig
  exact ⟨hco, runMain_mapping_not_found wr m s _ hco
    (lookupSheet_str_keys_int m _ hkeys)⟩

/-- Witness for claim C10: sheet selector `"2"` against a workbook holding a
sheet literally named `"2"`. -/
theorem c10_digit_sheet_witness :
    ("2".toList ≠ ([] : Str)) ∧
    (∀ c ∈ "2".toList, c.isDigit = true) ∧
    (∀ p ∈ [(SheetKey.str "Sheet1".toList, ([] : Table)),
            (SheetKey.str "2".toList, ([] : Table))],
        ∃ nm, p.1 = SheetKey.str nm) ∧
    ((SheetKey.str "2".toList, ([] : Table)) ∈
      [(SheetKey.str "Sheet1".toList, ([] : Table)),
       (SheetKey.str "2".toList, ([] : Table))]) ∧
    (coerceSheet (some "2".toList) = some (SheetKey.int (digitVal "2".toList)) ∧
     runMain (fun _ => true)
        (ReadResult.mapping
          [(SheetKey.str "Sheet1".toList, ([] : Table)),
           (SheetKey.str "2".toList, ([] : Table))])
        (some "2".toList) =
       Outcome.finished 0 []
         [LogMsg.sheetNotFound (SheetKey.int (digitVal "2".toList))
           ([(SheetKey.str "Sheet1".toList, ([] : Table)),
             (SheetKey.str "2".toList, ([] : Table))].map (fun p => p.1))]) :=
  ⟨by decide, by decide,
   by
    intro p hp
    simp only [List.mem_cons, List.not_mem_nil, or_false] at hp
    rcases hp with rfl | rfl
    · exact ⟨"Sheet1".toList, rfl⟩
    · exact ⟨"2".toList, rfl⟩,
   by decide,
   c10_digit_sheet_unreachable (fun _ => true) _ _ ([] : Table) (by decide) (by decide)
     (by
      intro p hp
      simp only [List.mem_cons, List.not_mem_nil, or_false] at hp
      rcases hp with rfl | rfl
      · exact ⟨"Sheet1".toList, rfl⟩
      · exact ⟨"2".toList, rfl⟩)
     (by decide)⟩

/-! ## Theorems about the export phase (claims C3, C7) -/

/-- Claim C7: `numeric_summary.csv` is written exactly when the normalized
table has at least one numeric column. -/
theorem c7_numeric_summary_iff (wr : Str → Bool) (dfNorm : Table) :
    Artifact.numericSummaryCsv ∈ (runExports wr dfNorm).1 ↔
      ∃ col ∈ dfNorm, col.isNumeric = true := by
  rw [runExports_fst]
  simp only [List.mem_append]
  constructor
  · rintro ((h | h) | h)
    · exact absurd h (by decide)
    · by_cases hnum : 0 < (numericCols dfNorm).length
      · obtain ⟨a, ha⟩ := List.exists_mem_of_length_pos hnum
        obtain ⟨hmem, hp⟩ := List.mem_filter.mp ha
        exact ⟨a, hmem, hp⟩
      · rw [if_neg hnum] at h
        exact absurd h (List.not_mem_nil _)
    · obtain ⟨n, _, heq⟩ := List.mem_map.mp h
      exact absurd heq (by simp)
  · rintro ⟨col, hmem, hnum⟩
    have hc : 0 < (numericCols dfNorm).length :=
      List.length_pos_of_mem (List.mem_filter.mpr ⟨hmem, hnum⟩)
    refine Or.inl (Or.inr ?_)
    rw [if_pos hc]
    simp

/-- Claim C3: a failure writing one non-numeric column's top-20 frequency CSV
is logged as a warning and only skips that column — the dictionary CSV,
`quality_flags.json`, and every other column's frequency table are still
produced. -/
theorem c3_per_column_isolation (wr : Str → Bool) (dfNorm : Table) (c : Str)
    (hc : c ∈ (catCols dfNorm).map (fun col => col.name))
    (hfail : wr (freqFileName c) = false)
    (hothers : ∀ c' ∈ (catCols dfNorm).map (fun col => col.name),
      c' ≠ c → wr (freqFileName c') = true) :
    Artifact.dataDictionaryCsv ∈ (runExports wr dfNorm).1 ∧
    Artifact.qualityFlagsJson ∈ (runExports wr dfNorm).1 ∧
    LogMsg.columnSaveFailed c ∈ (runExports wr dfNorm).2 ∧
    levelOf (LogMsg.columnSaveFailed c) = LogLevel.warning ∧
    Artifact.freqTable (freqFileName c) ∉ (runExports wr dfNorm).1 ∧
    (∀ c' ∈ (catCols dfNorm).map (fun col => col.name), c' ≠ c →
      Artifact.freqTable (freqFileName c') ∈ (runExports wr dfNorm).1) := by
  refine ⟨?_, ?_, ?_, rfl, ?_, ?_⟩
  · rw [runExports_fst]
    simp
  · rw [runExports_fst]
    simp
  · rw [runExports_snd]
    refine List.mem_map_of_mem _ (List.mem_filter.mpr ⟨hc, ?_⟩)
    rw [hfail]
    rfl
  · rw [runExports_fst]
    intro hmem
    simp only [List.mem_append] at hmem
    rcases hmem with (h | h) | h
    · simp at h
    · by_cases hnum : 0 < (numericCols dfNorm).length
      · rw [if_pos hnum] at h
        simp at h
      · rw [if_neg hnum] at h
        exact absurd h (List.not_mem_nil _)
    · obtain ⟨n, hn, heq⟩ := List.mem_map.mp h
      have hffn : freqFileName n = freqFileName c := by
        injection heq
      obtain ⟨_, hnwr⟩ := List.mem_filter.mp hn
      rw [hffn, hfail] at hnwr
      cases hnwr
  · intro c' hc' hne
    rw [runExports_fst]
    refine List.mem_append.mpr (Or.inr ?_)
    exact List.mem_map_of_mem _ (List.mem_filter.mpr ⟨hc', hothers c' hc' hne⟩)

/-- Witness for claim C3: a concrete two-column categorical table where only
the column `"bad"` fails to write. -/
theorem c3_per_column_isolation_witness :
    ("bad".toList ∈ (catCols witnessTable).map (fun col => col.name)) ∧
    witnessWr (freqFileName "bad".toList) = false ∧
    (∀ c' ∈ (catCols witnessTable).map (fun col => col.name),
      c' ≠ "bad".toList → witnessWr (freqFileName c') = true) ∧
    (Artifact.dataDictionaryCsv ∈ (runExports witnessWr witnessTable).1 ∧
     Artifact.qualityFlagsJson ∈ (runExports witnessWr witnessTable).1 ∧
     LogMsg.columnSaveFailed "bad".toList ∈ (runExports witnessWr witnessTable).2 ∧
     levelOf (LogMsg.columnSaveFailed "bad".toList) = LogLevel.warning ∧
     Artifact.freqTable (freqFileName "bad".toList) ∉ (runExports witnessWr witnessTable).1 ∧
     (∀ c' ∈ (catCols witnessTable).map (fun col => col.name), c' ≠ "bad".toList →
       Artifact.freqTable (freqFileName c') ∈ (runExports witnessWr witnessTable).1)) :=
  ⟨by decide, by decide, by decide,
   c3_per_column_isolation witnessWr witnessTable ("bad".toList)
     (by decide) (by decide) (by decide)⟩

end CrispDM
